import Mathlib

/-!
Verification development for `change_zip_ext.py`, a CLI utility that renames
ZIP archive files to a new extension (default `.ben`).

The Python program is shallowly embedded: paths become a structure of parent
components plus a final name, the filesystem becomes a finite association
list from paths to entries, and each function of the source becomes a Lean
function of the same shape.  Stateful operations pass the filesystem state
explicitly and also record a trace of the `os.replace` calls they perform.
Python exceptions are modelled with `Except`.
-/

set_option maxRecDepth 4000

/-- A filesystem path: parent directory components plus the final name.
Models `pathlib.Path` as used by the source (only the final component is
ever rewritten; parents are carried along unchanged). -/
structure PyPath where
  dir : List String
  name : String
deriving DecidableEq

/-- A regular file: its content (abstract) and whether `zipfile.is_zipfile`
reports it as a valid ZIP container.  The flag travels with the content
under renames, keeping the model consistent. -/
structure FsFile where
  content : Nat
  isZip : Bool
deriving DecidableEq

/-- A filesystem entry: a regular file or a directory. -/
inductive FsEntry where
  | file (f : FsFile)
  | dir
deriving DecidableEq

/-- The filesystem: a finite association list from paths to entries.
Later bindings shadow earlier ones; operations keep at most one binding
per key. -/
abbrev FS := List (PyPath × FsEntry)

/-- Model of `Path.exists` / lookup on the filesystem. -/
def lookupFS : FS → PyPath → Option FsEntry
  | [], _ => none
  | e :: fs, p => if e.1 = p then some e.2 else lookupFS fs p

/-- Model of `Path.exists()`. -/
def existsFS (fs : FS) (p : PyPath) : Bool :=
  (lookupFS fs p).isSome

/-- Model of `Path.is_file()`: true exactly for regular files. -/
def isFileFS (fs : FS) (p : PyPath) : Bool :=
  match lookupFS fs p with
  | some (.file _) => true
  | _ => false

/-- Model of `is_zip_file` (source lines 13-18): `zipfile.is_zipfile`, with
every exception swallowed to `False`.  Missing paths and directories give
`False`; a regular file answers with its ZIP-validity flag. -/
def is_zip_file (fs : FS) (p : PyPath) : Bool :=
  match lookupFS fs p with
  | some (.file f) => f.isZip
  | _ => false

/-- Remove every binding of a key. -/
def eraseFS : FS → PyPath → FS
  | [], _ => []
  | e :: fs, p => if e.1 = p then eraseFS fs p else e :: eraseFS fs p

/-- Bind a key to an entry, removing prior bindings. -/
def setFS (fs : FS) (p : PyPath) (v : FsEntry) : FS :=
  (p, v) :: eraseFS fs p

/-- Model of `os.replace(src, dst)`: atomically move `src` onto `dst`,
overwriting `dst`.  Fails (`none`, an `OSError`) when `src` is missing;
other OS-level failure modes (permissions, cross-device) are outside the
model. -/
def osReplace (fs : FS) (src dst : PyPath) : Option FS :=
  match lookupFS fs src with
  | some v => some (setFS (eraseFS fs src) dst v)
  | none => none

/-- Model of Python `str.strip()` (whitespace trimmed from both ends;
restricted to ASCII whitespace). -/
def pyStrip (s : String) : String :=
  String.mk (((s.data.dropWhile Char.isWhitespace).reverse.dropWhile Char.isWhitespace).reverse)

/-- Model of `ensure_dot_prefix` (source lines 21-28): strip whitespace,
raise `ValueError` on empty, prepend a dot when absent. -/
def ensureDot (ext : String) : Except String String :=
  let e := pyStrip ext
  if e = "" then .error "Extension cannot be empty."
  else if e.data.head? = some '.' then .ok e
  else .ok (String.mk ('.' :: e.data))

/-- Split a name at its last dot: `some (b, a)` means the name is
`b ++ '.' :: a` with no dot in `a`; `none` means no dot at all. -/
def splitLastDot : List Char → Option (List Char × List Char)
  | [] => none
  | c :: cs =>
    match splitLastDot cs with
    | some (b, a) => some (c :: b, a)
    | none => if c = '.' then some ([], cs) else none

/-- Model of `PurePath.stem` / `PurePath.suffix` on a final name: the pair
`(stem, suffix)`.  A dot at position 0 or at the very end does not start a
suffix, matching CPython. -/
def sufstem (l : List Char) : List Char × List Char :=
  match splitLastDot l with
  | some (b, a) => if b ≠ [] ∧ a ≠ [] then (b, '.' :: a) else (l, [])
  | none => (l, [])

/-- Model of `PurePath.with_suffix`: replace the final suffix, validating
the new suffix the way CPython does (no separators, must start with a dot,
must not be a bare dot). -/
def withSuffix (p : PyPath) (suffix : String) : Except String PyPath :=
  if suffix.data.contains '/' then .error "Invalid suffix"
  else if (suffix ≠ "" ∧ ¬ suffix.data.head? = some '.') ∨ suffix = "." then
    .error "Invalid suffix"
  else .ok ⟨p.dir, String.mk ((sufstem p.name.data).1 ++ suffix.data)⟩

/-- Decimal digit character, `48 + d` is the code point of the digit. -/
def digitChar (d : Nat) : Char := Char.ofNat (48 + d)

/-- Decimal digits of a number, fuelled so that the kernel can evaluate it. -/
def natDigitsAux (fuel : Nat) (n : Nat) : List Char :=
  match fuel with
  | 0 => []
  | fuel + 1 =>
    if n < 10 then [digitChar n]
    else natDigitsAux fuel (n / 10) ++ [digitChar (n % 10)]

/-- Model of Python `str(i)` for a natural number: its decimal digits. -/
def natDigits (n : Nat) : List Char := natDigitsAux (n + 1) n

/-- The i-th conflict-avoidance candidate built by `next_available_path`:
`target.with_name(f"{target.stem}-{i}{target.suffix}")` (source line 40). -/
def candidate (t : PyPath) (i : Nat) : PyPath :=
  ⟨t.dir, String.mk ((sufstem t.name.data).1 ++ '-' :: (natDigits i ++ (sufstem t.name.data).2))⟩

/-- The probing loop of `next_available_path` (source lines 38-43), fuelled:
try candidates `i`, `i+1`, ... until one does not exist.  The fuel given by
`next_available_path` always suffices (see `loop_finds_free`). -/
def next_available_loop (fs : FS) (t : PyPath) : Nat → Nat → PyPath
  | 0, i => candidate t i
  | fuel + 1, i =>
    if existsFS fs (candidate t i) then next_available_loop fs t fuel (i + 1)
    else candidate t i

/-- Model of `next_available_path` (source lines 31-43): an existing target
is diverted to the first free numeric-suffix candidate.  One more probe than
the number of filesystem bindings is always enough, by pigeonhole. -/
def next_available_path (fs : FS) (t : PyPath) : PyPath :=
  if existsFS fs t then next_available_loop fs t (fs.length + 1) 1 else t

/-- A single-quote character, used when rendering messages. -/
def squote : String := String.mk [Char.ofNat 39]

/-- The per-file messages of `change_extension`, one constructor per
f-string of the source, fields holding the interpolated values. -/
inductive Msg where
  | skipNotFile (p : PyPath)
  | skipNotZip (p : PyPath)
  | wouldRename (srcName dstName : String) (willOverwrite : Bool)
  | renamedOverwrote (srcName dstName : String)
  | renamed (srcName dstName : String) (conflictNote : Option String)
  | errorRenaming (p : PyPath)
deriving DecidableEq

/-- Render a path the way `str(Path(...))` does on POSIX. -/
def joinSlash : List String → String
  | [] => ""
  | [d] => d
  | d :: ds => d ++ "/" ++ joinSlash ds

/-- Render a path for message interpolation. -/
def renderPath (p : PyPath) : String :=
  match p.dir with
  | [] => p.name
  | ds => joinSlash ds ++ "/" ++ p.name

/-- Render a message to the exact string the source prints (the text of a
caught `OSError` is abstracted). -/
def renderMsg : Msg → String
  | .skipNotFile p => "Skip: " ++ squote ++ renderPath p ++ squote ++ " is not a file."
  | .skipNotZip p =>
      "Skip: " ++ squote ++ renderPath p ++ squote ++ " is not a valid ZIP (use --no-verify to force)."
  | .wouldRename s d w =>
      "Would rename: " ++ s ++ " -> " ++ d ++ (if w then " (will overwrite)" else "")
  | .renamedOverwrote s d => "Renamed (overwrote): " ++ s ++ " -> " ++ d
  | .renamed s d note =>
      "Renamed: " ++ s ++ " -> " ++ d ++
        (match note with
         | none => ""
         | some n => " (renamed to avoid conflict: " ++ n ++ ")")
  | .errorRenaming p => "Error renaming " ++ squote ++ renderPath p ++ squote ++ ": OSError"

/-- Outcome of one `change_extension` call: the filesystem afterwards, the
returned pair (or an uncaught exception), and the trace of successful
`os.replace` calls. -/
structure CEOut where
  fs : FS
  result : Except String (Bool × Msg)
  ops : List (PyPath × PyPath)

/-- Model of `change_extension` (source lines 59-99).  Mirrors the source
branch for branch: reject non-files; normalize the extension (an exception
propagates); optionally verify ZIP-ness; build the naive destination by
replacing the final suffix; in dry-run report only; otherwise rename with
either an atomic overwrite or a conflict-avoiding destination. -/
def change_extension (fs : FS) (file_path : PyPath) (new_extension : String)
    (verify_zip : Bool) (overwrite : Bool) (dry_run : Bool) : CEOut :=
  if !(isFileFS fs file_path) then
    ⟨fs, .ok (false, .skipNotFile file_path), []⟩
  else
    match ensureDot new_extension with
    | .error e => ⟨fs, .error e, []⟩
    | .ok ext =>
      if verify_zip && !(is_zip_file fs file_path) then
        ⟨fs, .ok (false, .skipNotZip file_path), []⟩
      else
        match withSuffix file_path ext with
        | .error e => ⟨fs, .error e, []⟩
        | .ok dst =>
          if dry_run then
            ⟨fs, .ok (true, .wouldRename file_path.name dst.name
                (overwrite && existsFS fs dst)), []⟩
          else
            -- `final_dst = dst if overwrite else next_available_path(dst)`
            -- (source line 89), inlined at its use sites
            if overwrite && existsFS fs dst then
              match osReplace fs file_path dst with
              | some fs2 =>
                  ⟨fs2, .ok (true, .renamedOverwrote file_path.name dst.name),
                    [(file_path, dst)]⟩
              | none => ⟨fs, .ok (false, .errorRenaming file_path), []⟩
            else
              match osReplace fs file_path (if overwrite then dst else next_available_path fs dst) with
              | some fs2 =>
                  ⟨fs2, .ok (true, .renamed file_path.name
                      (if overwrite then dst else next_available_path fs dst).name
                      (if (if overwrite then dst else next_available_path fs dst) = dst then none
                       else some (if overwrite then dst else next_available_path fs dst).name)),
                    [(file_path, (if overwrite then dst else next_available_path fs dst))]⟩
              | none => ⟨fs, .ok (false, .errorRenaming file_path), []⟩

/-- Split a raw CLI token at slashes (POSIX `Path(...)` parsing,
simplified: no special handling of roots or dot segments). -/
def splitSlash : List Char → List (List Char)
  | [] => [[]]
  | c :: cs =>
    let r := splitSlash cs
    if c = '/' then [] :: r
    else
      match r with
      | [] => [[c]]
      | g :: gs => (c :: g) :: gs

/-- Model of `Path(item)` on a raw string. -/
def parsePath (s : String) : PyPath :=
  match (splitSlash s.data).reverse with
  | [] => ⟨[], s⟩
  | n :: rest => ⟨(rest.reverse).map String.mk, String.mk n⟩

/-- The ambient environment: the answers `glob.glob(item, recursive=True)`
gives for each token, and the canonicalization `Path.resolve()` performs on
existing paths.  Both are host-dependent, so they are parameters of the
model. -/
structure Env where
  glob : String → List String
  resolvePath : PyPath → PyPath

/-- Normalization step of `expand_inputs` (source line 119): resolve a path
only when it exists. -/
def normalizeMatch (env : Env) (fs : FS) (p : PyPath) : PyPath :=
  if existsFS fs p then env.resolvePath p else p

/-- The deduplication step of `expand_inputs` (source lines 117-122): add a
normalized match unless already seen.  The accumulator carries
(seen, results). -/
def dedupStep (env : Env) (fs : FS) (acc2 : List PyPath × List PyPath) (p : PyPath) :
    List PyPath × List PyPath :=
  let q := normalizeMatch env fs p
  if q ∈ acc2.1 then acc2 else (q :: acc2.1, acc2.2 ++ [q])

/-- The per-token step of `expand_inputs` (source lines 109-122): glob the
token, fall back to the literal path on zero matches, then fold the
deduplication step over the matches. -/
def expandStep (env : Env) (fs : FS) (acc : List PyPath × List PyPath) (item : String) :
    List PyPath × List PyPath :=
  let ms0 := (env.glob item).map parsePath
  let ms := if ms0 = [] then [parsePath item] else ms0
  ms.foldl (dedupStep env fs) acc

/-- Model of `expand_inputs` (source lines 102-124): glob each token,
falling back to the literal path on zero matches; dedup while preserving
first-seen order. -/
def expand_inputs (env : Env) (fs : FS) (items : List String) : List PyPath :=
  (items.foldl (expandStep env fs) (([], []) : List PyPath × List PyPath)).2

/-- The parsed CLI arguments (source lines 127-162); `toExt` models the
`--to` option, which defaults to `.ben`; the boolean flags default to
false. -/
structure Args where
  paths : List String
  pattern : List String
  toExt : String
  force : Bool
  no_verify : Bool
  dry_run : Bool

/-- The per-file loop of `main` (source lines 180-189): run
`change_extension` on each file in order, threading the filesystem and
collecting `(ok, message)` pairs; an uncaught exception aborts the run. -/
def processFiles (fs : FS) (files : List PyPath) (a : Args) :
    Except String (FS × List (Bool × Msg)) :=
  match files with
  | [] => .ok (fs, [])
  | f :: rest =>
    let r := change_extension fs f a.toExt (!a.no_verify) a.force a.dry_run
    match r.result with
    | .error e => .error e
    | .ok (ok, msg) =>
      match processFiles r.fs rest a with
      | .error e => .error e
      | .ok (fs2, outs) => .ok (fs2, (ok, msg) :: outs)

/-- Model of `main` (source lines 165-191): returns the final filesystem,
the printed lines, and the exit code. -/
def mainRun (env : Env) (fs : FS) (args : Args) :
    Except String (FS × List String × Nat) :=
  let inputs := args.paths ++ args.pattern
  if inputs = [] then
    .ok (fs, ["No inputs provided. Specify files or use --pattern."], 2)
  else
    let files := expand_inputs env fs inputs
    if files = [] then
      .ok (fs, ["No files matched the provided paths/patterns."], 1)
    else
      match processFiles fs files args with
      | .error e => .error e
      | .ok (fs2, outs) =>
        .ok (fs2, outs.map (fun o => renderMsg o.2),
          if outs.foldl (fun acc o => acc && o.1) true then 0 else 1)

/-! ### Lookup lemmas for the filesystem model -/

theorem lookupFS_eraseFS_self (fs : FS) (p : PyPath) :
    lookupFS (eraseFS fs p) p = none := by
  induction fs with
  | nil => rfl
  | cons e fs ih =>
    by_cases h : e.1 = p
    · simpa [eraseFS, h] using ih
    · simp [eraseFS, h, lookupFS, ih]

theorem lookupFS_eraseFS_ne (fs : FS) (p q : PyPath) (h : q ≠ p) :
    lookupFS (eraseFS fs p) q = lookupFS fs q := by
  induction fs with
  | nil => rfl
  | cons e fs ih =>
    simp only [eraseFS]
    by_cases he : e.1 = p
    · rw [if_pos he, ih]
      have hne : ¬ e.1 = q := fun hq0 => h (hq0.symm.trans he)
      conv_rhs => rw [lookupFS]
      rw [if_neg hne]
    · rw [if_neg he]
      simp only [lookupFS]
      by_cases hq : e.1 = q
      · rw [if_pos hq, if_pos hq]
      · rw [if_neg hq, if_neg hq, ih]

theorem lookupFS_setFS_self (fs : FS) (p : PyPath) (v : FsEntry) :
    lookupFS (setFS fs p v) p = some v := by
  simp [setFS, lookupFS]

theorem lookupFS_setFS_ne (fs : FS) (p q : PyPath) (v : FsEntry) (h : q ≠ p) :
    lookupFS (setFS fs p v) q = lookupFS fs q := by
  have : ¬ p = q := fun hpq => h hpq.symm
  simp [setFS, lookupFS, this, lookupFS_eraseFS_ne fs p q h]

/-- Frame lemma for `os.replace`: the destination takes the source's entry,
the source disappears (when distinct from the destination), and every other
path keeps its entry. -/
theorem osReplace_spec (fs fs2 : FS) (src dst : PyPath)
    (h : osReplace fs src dst = some fs2) :
    lookupFS fs2 dst = lookupFS fs src ∧
    (src ≠ dst → lookupFS fs2 src = none) ∧
    (∀ q, q ≠ src → q ≠ dst → lookupFS fs2 q = lookupFS fs q) := by
  unfold osReplace at h
  cases hl : lookupFS fs src with
  | none => rw [hl] at h; cases h
  | some v =>
    rw [hl] at h
    have hfs2 : fs2 = setFS (eraseFS fs src) dst v := by
      cases h; rfl
    subst hfs2
    refine ⟨?_, ?_, ?_⟩
    · rw [lookupFS_setFS_self]
    · intro hne
      rw [lookupFS_setFS_ne _ _ _ _ hne, lookupFS_eraseFS_self]
    · intro q hqs hqd
      rw [lookupFS_setFS_ne _ _ _ _ hqd, lookupFS_eraseFS_ne _ _ _ hqs]

theorem isFileFS_lookup (fs : FS) (p : PyPath) (h : isFileFS fs p = true) :
    ∃ f, lookupFS fs p = some (.file f) := by
  unfold isFileFS at h
  cases hl : lookupFS fs p with
  | none => rw [hl] at h; cases h
  | some e =>
    cases e with
    | file f => exact ⟨f, rfl⟩
    | dir => rw [hl] at h; cases h

theorem isFileFS_of_lookup (fs : FS) (p : PyPath) (f : FsFile)
    (h : lookupFS fs p = some (.file f)) : isFileFS fs p = true := by
  unfold isFileFS
  rw [h]

theorem existsFS_of_lookup (fs : FS) (p : PyPath) (e : FsEntry)
    (h : lookupFS fs p = some e) : existsFS fs p = true := by
  unfold existsFS
  rw [h]
  rfl

theorem lookup_of_existsFS (fs : FS) (p : PyPath) (h : existsFS fs p = true) :
    ∃ e, lookupFS fs p = some e := by
  unfold existsFS at h
  cases hl : lookupFS fs p with
  | none => rw [hl] at h; cases h
  | some e => exact ⟨e, rfl⟩

/-- An existing path is among the keys of the association list. -/
theorem existsFS_mem_keys (fs : FS) (p : PyPath) (h : existsFS fs p = true) :
    p ∈ fs.map Prod.fst := by
  induction fs with
  | nil => cases h
  | cons e fs ih =>
    simp only [List.map_cons, List.mem_cons]
    by_cases he : e.1 = p
    · exact Or.inl he.symm
    · refine Or.inr (ih ?_)
      unfold existsFS lookupFS at h
      rw [if_neg he] at h
      exact h

/-! ### Stem and suffix lemmas -/

theorem splitLastDot_eq (l : List Char) (b a : List Char)
    (h : splitLastDot l = some (b, a)) : l = b ++ '.' :: a := by
  induction l generalizing b a with
  | nil => cases h
  | cons c cs ih =>
    unfold splitLastDot at h
    cases hs : splitLastDot cs with
    | some ba =>
      rw [hs] at h
      obtain ⟨b0, a0⟩ := ba
      simp only [Option.some.injEq, Prod.mk.injEq] at h
      obtain ⟨hb, ha⟩ := h
      subst hb
      subst ha
      simp [ih b0 a0 hs]
    | none =>
      rw [hs] at h
      by_cases hc : c = '.'
      · rw [if_pos hc] at h
        simp only [Option.some.injEq, Prod.mk.injEq] at h
        obtain ⟨hb, ha⟩ := h
        subst hb
        subst ha
        simp [hc]
      · rw [if_neg hc] at h
        cases h

/-- The stem and suffix always reassemble to the whole name. -/
theorem sufstem_append (l : List Char) : (sufstem l).1 ++ (sufstem l).2 = l := by
  unfold sufstem
  split
  next b a hs =>
    split
    next hba => exact (splitLastDot_eq l b a hs).symm
    next hba => simp
  next hs => simp

/-! ### Decimal digits: evaluation and injectivity -/

theorem digitChar_inj_lt (a b : Nat) (ha : a < 10) (hb : b < 10)
    (h : digitChar a = digitChar b) : a = b := by
  have key : ∀ x y : Fin 10, digitChar x.val = digitChar y.val → x = y := by decide
  have := key ⟨a, ha⟩ ⟨b, hb⟩ h
  exact congrArg Fin.val this

theorem natDigitsAux_ne_nil (fuel n : Nat) : natDigitsAux (fuel + 1) n ≠ [] := by
  unfold natDigitsAux
  by_cases h : n < 10
  · rw [if_pos h]
    simp
  · rw [if_neg h]
    simp

/-- The fuel does not matter as long as it exceeds the number. -/
theorem natDigitsAux_fuel (fuel1 fuel2 n : Nat) (h1 : n < fuel1) (h2 : n < fuel2) :
    natDigitsAux fuel1 n = natDigitsAux fuel2 n := by
  induction fuel1 generalizing fuel2 n with
  | zero => omega
  | succ f1 ih =>
    cases fuel2 with
    | zero => omega
    | succ f2 =>
      unfold natDigitsAux
      by_cases h : n < 10
      · rw [if_pos h, if_pos h]
      · rw [if_neg h, if_neg h]
        have hd : n / 10 < n := Nat.div_lt_self (by omega) (by omega)
        rw [ih f2 (n / 10) (by omega) (by omega)]

theorem natDigitsAux_inj (fuel : Nat) : ∀ m n : Nat, m < fuel → n < fuel →
    natDigitsAux fuel m = natDigitsAux fuel n → m = n := by
  induction fuel with
  | zero => omega
  | succ f ih =>
    intro m n hm hn h
    unfold natDigitsAux at h
    by_cases hm10 : m < 10
    · by_cases hn10 : n < 10
      · rw [if_pos hm10, if_pos hn10] at h
        exact digitChar_inj_lt m n hm10 hn10 (List.singleton_injective h)
      · rw [if_pos hm10, if_neg hn10] at h
        have hlen := congrArg List.length h
        have hne : natDigitsAux f (n / 10) ≠ [] := by
          cases f with
          | zero => omega
          | succ f0 => exact natDigitsAux_ne_nil f0 (n / 10)
        have hp : 1 ≤ (natDigitsAux f (n / 10)).length := List.length_pos.mpr hne
        rw [List.length_append] at hlen
        simp only [List.length_cons, List.length_nil] at hlen
        omega
    · by_cases hn10 : n < 10
      · rw [if_neg hm10, if_pos hn10] at h
        have hlen := congrArg List.length h
        have hne : natDigitsAux f (m / 10) ≠ [] := by
          cases f with
          | zero => omega
          | succ f0 => exact natDigitsAux_ne_nil f0 (m / 10)
        have hp : 1 ≤ (natDigitsAux f (m / 10)).length := List.length_pos.mpr hne
        rw [List.length_append] at hlen
        simp only [List.length_cons, List.length_nil] at hlen
        omega
      · rw [if_neg hm10, if_neg hn10] at h
        have hrev := congrArg List.reverse h
        simp only [List.reverse_append, List.reverse_cons, List.reverse_nil,
          List.nil_append, List.cons_append] at hrev
        have hhead : digitChar (m % 10) = digitChar (n % 10) := by
          exact (List.cons.injEq _ _ _ _ ▸ hrev).1
        have htail : (natDigitsAux f (m / 10)).reverse = (natDigitsAux f (n / 10)).reverse := by
          exact (List.cons.injEq _ _ _ _ ▸ hrev).2
        have hdiv : natDigitsAux f (m / 10) = natDigitsAux f (n / 10) :=
          List.reverse_injective htail
        have hmdiv : m / 10 < m := Nat.div_lt_self (by omega) (by omega)
        have hndiv : n / 10 < n := Nat.div_lt_self (by omega) (by omega)
        have heq1 : m / 10 = n / 10 := ih (m / 10) (n / 10) (by omega) (by omega) hdiv
        have heq2 : m % 10 = n % 10 :=
          digitChar_inj_lt _ _ (Nat.mod_lt m (by omega)) (Nat.mod_lt n (by omega)) hhead
        omega

/-- Injectivity of the decimal representation. -/
theorem natDigits_inj (m n : Nat) (h : natDigits m = natDigits n) : m = n := by
  unfold natDigits at h
  have hm : natDigitsAux (m + 1) m = natDigitsAux (m + n + 1) m :=
    natDigitsAux_fuel _ _ _ (by omega) (by omega)
  have hn : natDigitsAux (n + 1) n = natDigitsAux (m + n + 1) n :=
    natDigitsAux_fuel _ _ _ (by omega) (by omega)
  rw [hm, hn] at h
  exact natDigitsAux_inj (m + n + 1) m n (by omega) (by omega) h

theorem natDigits_ne_nil (n : Nat) : natDigits n ≠ [] :=
  natDigitsAux_ne_nil n n

/-! ### Candidate paths: injectivity and distinctness -/

theorem candidate_inj (t : PyPath) : Function.Injective (candidate t) := by
  intro i j h
  have hname : (candidate t i).name.data = (candidate t j).name.data := by rw [h]
  unfold candidate at hname
  simp only at hname
  have h1 : ('-' :: (natDigits i ++ (sufstem t.name.data).2)) =
      ('-' :: (natDigits j ++ (sufstem t.name.data).2)) :=
    List.append_cancel_left hname
  have h2 : natDigits i ++ (sufstem t.name.data).2 =
      natDigits j ++ (sufstem t.name.data).2 := by
    injection h1
  have h3 : natDigits i = natDigits j := List.append_cancel_right h2
  exact natDigits_inj i j h3

theorem candidate_ne_target (t : PyPath) (i : Nat) : candidate t i ≠ t := by
  intro h
  have hname : (candidate t i).name.data = t.name.data := by rw [h]
  unfold candidate at hname
  simp only at hname
  have hlen := congrArg List.length hname
  have hsum := congrArg List.length (sufstem_append t.name.data)
  rw [List.length_append] at hsum
  have hd : 1 ≤ (natDigits i).length := List.length_pos.mpr (natDigits_ne_nil i)
  simp only [List.length_append, List.length_cons] at hlen
  omega

/-! ### A home-grown integer range, for the pigeonhole argument -/

def natRange (s : Nat) : Nat → List Nat
  | 0 => []
  | n + 1 => s :: natRange (s + 1) n

theorem natRange_length (s n : Nat) : (natRange s n).length = n := by
  induction n generalizing s with
  | zero => rfl
  | succ n ih => simp [natRange, ih]

theorem mem_natRange (s n m : Nat) : m ∈ natRange s n ↔ s ≤ m ∧ m < s + n := by
  induction n generalizing s with
  | zero =>
    simp only [natRange, List.not_mem_nil, false_iff]
    omega
  | succ n ih =>
    simp only [natRange, List.mem_cons, ih (s + 1)]
    omega

theorem natRange_nodup (s n : Nat) : (natRange s n).Nodup := by
  induction n generalizing s with
  | zero => exact List.nodup_nil
  | succ n ih =>
    refine List.Nodup.cons ?_ (ih (s + 1))
    intro hmem
    have := (mem_natRange (s + 1) n s).mp hmem
    omega

/-- Pigeonhole: among the first `fs.length + 1` candidates (indices 1 to
`fs.length + 1`), at least one does not exist on the filesystem. -/
theorem exists_free_candidate (fs : FS) (t : PyPath) :
    ∃ j, 1 ≤ j ∧ j < fs.length + 2 ∧ existsFS fs (candidate t j) = false := by
  by_contra hall
  have hex : ∀ j, 1 ≤ j → j < fs.length + 2 → existsFS fs (candidate t j) = true := by
    intro j h1 h2
    cases hb : existsFS fs (candidate t j) with
    | false => exact absurd ⟨j, h1, h2, hb⟩ hall
    | true => rfl
  have hnd : ((natRange 1 (fs.length + 1)).map (candidate t)).Nodup :=
    (natRange_nodup 1 (fs.length + 1)).map (candidate_inj t)
  have hsub : ((natRange 1 (fs.length + 1)).map (candidate t)) ⊆ fs.map Prod.fst := by
    intro p hp
    obtain ⟨j, hjmem, rfl⟩ := List.mem_map.mp hp
    obtain ⟨hj1, hj2⟩ := (mem_natRange 1 (fs.length + 1) j).mp hjmem
    exact existsFS_mem_keys fs (candidate t j) (hex j hj1 (by omega))
  have hle := (List.subperm_of_subset hnd hsub).length_le
  rw [List.length_map, natRange_length, List.length_map] at hle
  omega

/-- The fuelled probing loop: if some candidate in the probed window is
free, the loop stops at the least free index and returns that candidate. -/
theorem loop_finds_free (fs : FS) (t : PyPath) : ∀ fuel i j, i ≤ j → j < i + fuel →
    existsFS fs (candidate t j) = false →
    ∃ k, i ≤ k ∧ next_available_loop fs t fuel i = candidate t k ∧
      existsFS fs (candidate t k) = false ∧
      ∀ m, i ≤ m → m < k → existsFS fs (candidate t m) = true := by
  intro fuel
  induction fuel with
  | zero => intro i j hij hj hfree; omega
  | succ f ih =>
    intro i j hij hj hfree
    cases hb : existsFS fs (candidate t i) with
    | true =>
      have hij2 : i + 1 ≤ j := by
        rcases Nat.eq_or_lt_of_le hij with heq | hlt
        · rw [← heq] at hfree
          rw [hfree] at hb
          cases hb
        · omega
      obtain ⟨k, hk1, hk2, hk3, hk4⟩ := ih (i + 1) j hij2 (by omega) hfree
      refine ⟨k, by omega, ?_, hk3, ?_⟩
      · simp only [next_available_loop, hb, if_true]
        exact hk2
      · intro m hm1 hm2
        rcases Nat.eq_or_lt_of_le hm1 with heq | hlt
        · rw [← heq]; exact hb
        · exact hk4 m hlt hm2
    | false =>
      refine ⟨i, Nat.le_refl i, ?_, hb, ?_⟩
      · simp [next_available_loop, hb]
      · intro m hm1 hm2; omega

/-- Full specification of `next_available_path` on an existing target: the
result is the first free numeric-suffix candidate. -/
theorem nap_spec (fs : FS) (t : PyPath) (h : existsFS fs t = true) :
    ∃ i, 1 ≤ i ∧ next_available_path fs t = candidate t i ∧
      existsFS fs (candidate t i) = false ∧
      ∀ j, 1 ≤ j → j < i → existsFS fs (candidate t j) = true := by
  obtain ⟨j, hj1, hj2, hj3⟩ := exists_free_candidate fs t
  obtain ⟨k, hk1, hk2, hk3, hk4⟩ :=
    loop_finds_free fs t (fs.length + 1) 1 j hj1 (by omega) hj3
  refine ⟨k, hk1, ?_, hk3, hk4⟩
  unfold next_available_path
  rw [h]
  simp only [if_true]
  exact hk2

theorem nap_not_exists (fs : FS) (t : PyPath) (h : existsFS fs t = false) :
    next_available_path fs t = t := by
  unfold next_available_path
  rw [h]
  simp

/-! ### Branch evaluation lemmas for `change_extension` -/

theorem ce_skip_notfile (fs : FS) (p : PyPath) (e : String) (vz ow dr : Bool)
    (h : isFileFS fs p = false) :
    change_extension fs p e vz ow dr = ⟨fs, .ok (false, .skipNotFile p), []⟩ := by
  unfold change_extension
  rw [h]
  rfl

theorem ce_skip_zip (fs : FS) (p : PyPath) (e : String) (vz ow dr : Bool) (ext : String)
    (hf : isFileFS fs p = true)
    (hE : ensureDot e = .ok ext)
    (hZ : (vz && !(is_zip_file fs p)) = true) :
    change_extension fs p e vz ow dr = ⟨fs, .ok (false, .skipNotZip p), []⟩ := by
  unfold change_extension
  rw [hf, hE]
  simp only [Bool.not_true, Bool.false_eq_true, if_false, hZ, if_true]

theorem ce_dry_run (fs : FS) (p : PyPath) (e : String) (vz ow : Bool)
    (ext : String) (dst : PyPath)
    (hf : isFileFS fs p = true)
    (hE : ensureDot e = .ok ext)
    (hZ : (vz && !(is_zip_file fs p)) = false)
    (hW : withSuffix p ext = .ok dst) :
    change_extension fs p e vz ow true =
      ⟨fs, .ok (true, .wouldRename p.name dst.name (ow && existsFS fs dst)), []⟩ := by
  unfold change_extension
  rw [hf, hE]
  simp only [Bool.not_true, Bool.false_eq_true, if_false, hZ, hW, if_true]

theorem ce_real_run (fs : FS) (p : PyPath) (e : String) (vz ow : Bool)
    (f : FsFile) (ext : String) (dst : PyPath)
    (hFile : lookupFS fs p = some (.file f))
    (hE : ensureDot e = .ok ext)
    (hZ : (vz && !(is_zip_file fs p)) = false)
    (hW : withSuffix p ext = .ok dst) :
    change_extension fs p e vz ow false =
      if ow && existsFS fs dst then
        ⟨setFS (eraseFS fs p) dst (.file f),
         .ok (true, .renamedOverwrote p.name dst.name), [(p, dst)]⟩
      else
        ⟨setFS (eraseFS fs p) (if ow then dst else next_available_path fs dst) (.file f),
         .ok (true, .renamed p.name (if ow then dst else next_available_path fs dst).name
            (if (if ow then dst else next_available_path fs dst) = dst then none
             else some (if ow then dst else next_available_path fs dst).name)),
         [(p, (if ow then dst else next_available_path fs dst))]⟩ := by
  have hf : isFileFS fs p = true := isFileFS_of_lookup fs p f hFile
  unfold change_extension
  rw [hf, hE]
  simp only [Bool.not_true, Bool.false_eq_true, if_false, hZ, hW]
  unfold osReplace
  rw [hFile]

/-- Exhaustive enumeration of the possible outcomes of `change_extension`:
skip (not a file), uncaught exception, skip (not a ZIP), dry-run report,
caught rename error, or a successful rename recorded in the trace. -/
theorem ce_out_cases (fs : FS) (p : PyPath) (e : String) (vz ow dr : Bool) :
    change_extension fs p e vz ow dr = ⟨fs, .ok (false, .skipNotFile p), []⟩ ∨
    (∃ err, change_extension fs p e vz ow dr = ⟨fs, .error err, []⟩) ∨
    change_extension fs p e vz ow dr = ⟨fs, .ok (false, .skipNotZip p), []⟩ ∨
    (∃ s d w, dr = true ∧
      change_extension fs p e vz ow dr = ⟨fs, .ok (true, .wouldRename s d w), []⟩) ∨
    change_extension fs p e vz ow dr = ⟨fs, .ok (false, .errorRenaming p), []⟩ ∨
    (dr = false ∧ ∃ dst fs2 m, osReplace fs p dst = some fs2 ∧
      change_extension fs p e vz ow dr = ⟨fs2, .ok (true, m), [(p, dst)]⟩) := by
  unfold change_extension
  split
  · exact Or.inl rfl
  · split
    · exact Or.inr (Or.inl ⟨_, rfl⟩)
    · split
      · exact Or.inr (Or.inr (Or.inl rfl))
      · split
        · exact Or.inr (Or.inl ⟨_, rfl⟩)
        · split
          next hdr =>
            exact Or.inr (Or.inr (Or.inr (Or.inl ⟨_, _, _, hdr, rfl⟩)))
          next hdr =>
            have hdrf : dr = false := by
              cases dr with
              | true => exact absurd rfl hdr
              | false => rfl
            split
            all_goals
              repeat'
                first
                  | exact Or.inr (Or.inr (Or.inr (Or.inr (Or.inl rfl))))
                  | exact Or.inr (Or.inr (Or.inr (Or.inr (Or.inr
                      ⟨hdrf, _, _, _, by assumption, rfl⟩))))
                  | split

/-! ### Claim theorems -/

/-- C7: `ensure_dot_prefix` trims whitespace, fails with the invalid-argument
error exactly when the trimmed extension is empty (in particular on `""` and
`"   "`), and otherwise returns the trimmed string with a leading dot
prepended when absent, so every returned value starts with a dot.  (The
function is pure by construction in this embedding.) -/
theorem ensure_dot_contract :
    (∀ e : String,
      (ensureDot e = .error "Extension cannot be empty." ↔ pyStrip e = "") ∧
      (∀ r, ensureDot e = .ok r → r.data.head? = some '.' ∧
        (r = pyStrip e ∨ r = String.mk ('.' :: (pyStrip e).data)))) ∧
    ensureDot "" = .error "Extension cannot be empty." ∧
    ensureDot "   " = .error "Extension cannot be empty." := by
  refine ⟨?_, rfl, rfl⟩
  intro e
  constructor
  · constructor
    · intro h
      by_cases hs : pyStrip e = ""
      · exact hs
      · exfalso
        simp only [ensureDot] at h
        rw [if_neg hs] at h
        by_cases hh : (pyStrip e).data.head? = some '.'
        · rw [if_pos hh] at h; cases h
        · rw [if_neg hh] at h; cases h
    · intro h
      simp only [ensureDot]
      rw [if_pos h]
  · intro r h
    simp only [ensureDot] at h
    by_cases hs : pyStrip e = ""
    · rw [if_pos hs] at h; cases h
    · rw [if_neg hs] at h
      by_cases hh : (pyStrip e).data.head? = some '.'
      · rw [if_pos hh] at h
        simp only [Except.ok.injEq] at h
        subst h
        exact ⟨hh, Or.inl rfl⟩
      · rw [if_neg hh] at h
        simp only [Except.ok.injEq] at h
        subst h
        exact ⟨rfl, Or.inr rfl⟩

/-- Witness for C7 at the concrete input `"  ben "`: trimming gives `"ben"`,
the returned extension is `".ben"`, which starts with a dot. -/
theorem ensure_dot_contract_witness :
    (".ben" : String).data.head? = some '.' ∧
    ((".ben" : String) = pyStrip "  ben " ∨
      (".ben" : String) = String.mk ('.' :: (pyStrip "  ben ").data)) :=
  (ensure_dot_contract.1 "  ben ").2 ".ben" (by rfl)

/-- C6: `next_available_path` returns a non-existing path, distinct from an
existing input, obtained as the first free numeric-suffix candidate; a
non-existing input is returned unchanged.  The probing loop terminates: the
fuelled loop provably finds a free candidate within `fs.length + 1` probes,
so the returned path never depends on fuel exhaustion. -/
theorem next_available_path_contract : ∀ (fs : FS) (t : PyPath),
    (existsFS fs t = false → next_available_path fs t = t) ∧
    (existsFS fs t = true →
      existsFS fs (next_available_path fs t) = false ∧
      next_available_path fs t ≠ t ∧
      ∃ i, 1 ≤ i ∧ next_available_path fs t = candidate t i ∧
        ∀ j, 1 ≤ j → j < i → existsFS fs (candidate t j) = true) := by
  intro fs t
  refine ⟨nap_not_exists fs t, ?_⟩
  intro h
  obtain ⟨i, hi1, hi2, hi3, hi4⟩ := nap_spec fs t h
  refine ⟨?_, ?_, i, hi1, hi2, hi4⟩
  · rw [hi2]; exact hi3
  · rw [hi2]; exact candidate_ne_target t i

/-- A small filesystem used by witnesses: `a.ben` and `a-1.ben` exist, so
conflict avoidance has to skip to `a-2.ben`. -/
def fsW : FS := [(⟨[], "a.ben"⟩, .file ⟨0, true⟩), (⟨[], "a-1.ben"⟩, .file ⟨1, false⟩)]

/-- Witness for C6 on `fsW`: `a.ben` exists, and the contract instantiates. -/
theorem next_available_path_contract_witness :
    existsFS fsW ⟨[], "a.ben"⟩ = true ∧
    (existsFS fsW (next_available_path fsW ⟨[], "a.ben"⟩) = false ∧
      next_available_path fsW ⟨[], "a.ben"⟩ ≠ ⟨[], "a.ben"⟩ ∧
      ∃ i, 1 ≤ i ∧ next_available_path fsW ⟨[], "a.ben"⟩ = candidate ⟨[], "a.ben"⟩ i ∧
        ∀ j, 1 ≤ j → j < i → existsFS fsW (candidate ⟨[], "a.ben"⟩ j) = true) :=
  ⟨rfl, (next_available_path_contract fsW ⟨[], "a.ben"⟩).2 rfl⟩

/-- C4: with `dry_run` the filesystem is returned unchanged and no
`os.replace` happens, whatever the other flags; a successful real run
performs exactly one `os.replace`; a skipped real run performs none and
leaves the filesystem unchanged. -/
theorem dry_run_frame : ∀ (fs : FS) (p : PyPath) (e : String) (vz ow : Bool),
    (change_extension fs p e vz ow true).fs = fs ∧
    (change_extension fs p e vz ow true).ops = [] ∧
    (∀ m, (change_extension fs p e vz ow false).result = .ok (true, m) →
      (change_extension fs p e vz ow false).ops.length = 1) ∧
    (∀ m, (change_extension fs p e vz ow false).result = .ok (false, m) →
      (change_extension fs p e vz ow false).fs = fs ∧
      (change_extension fs p e vz ow false).ops = []) := by
  intro fs p e vz ow
  have hdry := ce_out_cases fs p e vz ow true
  have hreal := ce_out_cases fs p e vz ow false
  refine ⟨?_, ?_, ?_, ?_⟩
  · rcases hdry with h | ⟨err, h⟩ | h | ⟨s, d, w, _, h⟩ | h | ⟨hdr, _⟩
    · rw [h]
    · rw [h]
    · rw [h]
    · rw [h]
    · rw [h]
    · cases hdr
  · rcases hdry with h | ⟨err, h⟩ | h | ⟨s, d, w, _, h⟩ | h | ⟨hdr, _⟩
    · rw [h]
    · rw [h]
    · rw [h]
    · rw [h]
    · rw [h]
    · cases hdr
  · intro m hm
    rcases hreal with h | ⟨err, h⟩ | h | ⟨s, d, w, hdr, h⟩ | h | ⟨_, dst, fs2, m2, hrep, h⟩
    · rw [h] at hm; simp at hm
    · rw [h] at hm; simp at hm
    · rw [h] at hm; simp at hm
    · cases hdr
    · rw [h] at hm; simp at hm
    · rw [h]; rfl
  · intro m hm
    rcases hreal with h | ⟨err, h⟩ | h | ⟨s, d, w, hdr, h⟩ | h | ⟨_, dst, fs2, m2, hrep, h⟩
    · rw [h]; exact ⟨rfl, rfl⟩
    · rw [h] at hm; simp at hm
    · rw [h]; exact ⟨rfl, rfl⟩
    · cases hdr
    · rw [h]; exact ⟨rfl, rfl⟩
    · rw [h] at hm; simp at hm

/-- A one-file filesystem used by witnesses: a single valid ZIP `a.zip`. -/
def fsA : FS := [(⟨[], "a.zip"⟩, .file ⟨0, true⟩)]

/-- Witness for C4 on `fsA`: the successful real run moved exactly one file,
and the dry run left the filesystem alone. -/
theorem dry_run_frame_witness :
    (change_extension fsA ⟨[], "a.zip"⟩ ".ben" true false true).fs = fsA ∧
    (change_extension fsA ⟨[], "a.zip"⟩ ".ben" true false false).ops.length = 1 :=
  ⟨(dry_run_frame fsA ⟨[], "a.zip"⟩ ".ben" true false).1,
   (dry_run_frame fsA ⟨[], "a.zip"⟩ ".ben" true false).2.2.1
     (.renamed "a.zip" "a.ben" none) rfl⟩

/-- C3: a regular file that is not a valid ZIP is skipped when
`verify_zip` is set — unchanged filesystem, no replace, non-success
outcome — and with verification disabled the same file is renamed
unconditionally (one `os.replace`, success, source entry moved).  The
extension must normalize (the source raises before the ZIP check
otherwise). -/
theorem verify_gate : ∀ (fs : FS) (p : PyPath) (e : String) (ow dr : Bool) (ext : String),
    isFileFS fs p = true → is_zip_file fs p = false → ensureDot e = .ok ext →
    change_extension fs p e true ow dr = ⟨fs, .ok (false, .skipNotZip p), []⟩ ∧
    (∀ dst, withSuffix p ext = .ok dst →
      ∃ fd fs2, osReplace fs p fd = some fs2 ∧
        (∃ m, (change_extension fs p e false ow false).result = .ok (true, m)) ∧
        (change_extension fs p e false ow false).ops = [(p, fd)] ∧
        (change_extension fs p e false ow false).fs = fs2) := by
  intro fs p e ow dr ext hf hzip hE
  constructor
  · exact ce_skip_zip fs p e true ow dr ext hf hE (by rw [hzip]; rfl)
  · intro dst hW
    obtain ⟨f, hFile⟩ := isFileFS_lookup fs p hf
    have heq := ce_real_run fs p e false ow f ext dst hFile hE rfl hW
    have hrep : osReplace fs p = fun d => some (setFS (eraseFS fs p) d (.file f)) := by
      funext d
      unfold osReplace
      rw [hFile]
    by_cases hcond : (ow && existsFS fs dst) = true
    · rw [if_pos hcond] at heq
      refine ⟨dst, setFS (eraseFS fs p) dst (.file f), ?_,
        ⟨Msg.renamedOverwrote p.name dst.name, ?_⟩, ?_, ?_⟩
      · rw [hrep]
      · rw [heq]
      · rw [heq]
      · rw [heq]
    · rw [if_neg hcond] at heq
      refine ⟨(if ow then dst else next_available_path fs dst),
        setFS (eraseFS fs p) (if ow then dst else next_available_path fs dst) (.file f),
        ?_,
        ⟨Msg.renamed p.name (if ow then dst else next_available_path fs dst).name
          (if (if ow then dst else next_available_path fs dst) = dst then none
           else some (if ow then dst else next_available_path fs dst).name), ?_⟩,
        ?_, ?_⟩
      · rw [hrep]
      · rw [heq]
      · rw [heq]
      · rw [heq]

/-- A one-file filesystem with a non-ZIP regular file `b.zip`. -/
def fsB : FS := [(⟨[], "b.zip"⟩, .file ⟨5, false⟩)]

/-- Witness for C3 on `fsB`: with verification the file is skipped; without
verification it is renamed (to `b.ben`). -/
theorem verify_gate_witness :
    change_extension fsB ⟨[], "b.zip"⟩ ".ben" true false false
      = ⟨fsB, .ok (false, .skipNotZip ⟨[], "b.zip"⟩), []⟩ ∧
    (∃ fd fs2, osReplace fsB ⟨[], "b.zip"⟩ fd = some fs2 ∧
      (∃ m, (change_extension fsB ⟨[], "b.zip"⟩ ".ben" false false false).result
          = .ok (true, m)) ∧
      (change_extension fsB ⟨[], "b.zip"⟩ ".ben" false false false).ops
          = [(⟨[], "b.zip"⟩, fd)] ∧
      (change_extension fsB ⟨[], "b.zip"⟩ ".ben" false false false).fs = fs2) :=
  ⟨(verify_gate fsB ⟨[], "b.zip"⟩ ".ben" false false ".ben" rfl rfl rfl).1,
   (verify_gate fsB ⟨[], "b.zip"⟩ ".ben" false false ".ben" rfl rfl rfl).2
     ⟨[], "b.ben"⟩ rfl⟩

/-- A filesystem where both `a.zip` (a valid ZIP) and `a.ben` exist. -/
def fsC : FS := [(⟨[], "a.zip"⟩, .file ⟨0, true⟩), (⟨[], "a.ben"⟩, .file ⟨1, true⟩)]

/-- Counterexample to C9 as stated: on `fsC` with `overwrite=False`, the
dry-run message names destination `a.ben`, but the real run with the same
flags and filesystem renames to `a-1.ben` — the dry-run message does not
report the destination an actual run would use. -/
theorem dry_run_message_cex :
    (change_extension fsC ⟨[], "a.zip"⟩ ".ben" true false true).result
        = .ok (true, .wouldRename "a.zip" "a.ben" false) ∧
    (change_extension fsC ⟨[], "a.zip"⟩ ".ben" true false false).result
        = .ok (true, .renamed "a.zip" "a-1.ben" (some "a-1.ben")) ∧
    (change_extension fsC ⟨[], "a.zip"⟩ ".ben" true false false).ops
        = [(⟨[], "a.zip"⟩, ⟨[], "a-1.ben"⟩)] ∧
    ("a.ben" : String) ≠ "a-1.ben" :=
  ⟨rfl, rfl, rfl, by decide⟩

/-- C9 amended: the dry-run message reports the naive destination (source
with its suffix replaced), with the overwrite note exactly when
`overwrite` is set and the destination exists; that named destination
equals the destination of an actual run whenever `overwrite` is set or the
naive destination does not exist (with `overwrite` unset and an existing
destination the actual run diverges to a conflict-avoiding name). -/
theorem dry_run_message_amended : ∀ (fs : FS) (p : PyPath) (e : String) (vz ow : Bool)
    (ext : String) (dst : PyPath) (f : FsFile),
    lookupFS fs p = some (.file f) →
    ensureDot e = .ok ext →
    (vz && !(is_zip_file fs p)) = false →
    withSuffix p ext = .ok dst →
    (change_extension fs p e vz ow true).result
      = .ok (true, .wouldRename p.name dst.name (ow && existsFS fs dst)) ∧
    (ow = true ∨ existsFS fs dst = false →
      (change_extension fs p e vz ow false).ops = [(p, dst)] ∧
      ∃ m, (change_extension fs p e vz ow false).result = .ok (true, m)) := by
  intro fs p e vz ow ext dst f hFile hE hZ hW
  have hf : isFileFS fs p = true := isFileFS_of_lookup fs p f hFile
  constructor
  · rw [ce_dry_run fs p e vz ow ext dst hf hE hZ hW]
  · intro hcase
    have heq := ce_real_run fs p e vz ow f ext dst hFile hE hZ hW
    rcases hcase with how | hex
    · subst how
      by_cases hex : existsFS fs dst = true
      · rw [if_pos (by rw [hex]; rfl)] at heq
        exact ⟨by rw [heq], _, by rw [heq]⟩
      · have hexf : existsFS fs dst = false := by
          cases hb : existsFS fs dst with
          | true => exact absurd hb hex
          | false => rfl
        rw [if_neg (by rw [hexf]; simp)] at heq
        rw [if_pos rfl] at heq
        exact ⟨by rw [heq], _, by rw [heq]⟩
    · rw [if_neg (by rw [hex]; simp)] at heq
      rw [nap_not_exists fs dst hex, ite_self] at heq
      exact ⟨by rw [heq], _, by rw [heq]⟩

/-- Witness for the amended C9 on `fsA`: destination `a.ben` is free, so
the dry-run message and the real run agree on the destination. -/
theorem dry_run_message_amended_witness :
    (change_extension fsA ⟨[], "a.zip"⟩ ".ben" true false true).result
        = .ok (true, .wouldRename "a.zip" "a.ben" (false && existsFS fsA ⟨[], "a.ben"⟩)) ∧
    (change_extension fsA ⟨[], "a.zip"⟩ ".ben" true false false).ops
        = [(⟨[], "a.zip"⟩, ⟨[], "a.ben"⟩)] ∧
    (∃ m, (change_extension fsA ⟨[], "a.zip"⟩ ".ben" true false false).result
        = .ok (true, m)) := by
  have h := dry_run_message_amended fsA ⟨[], "a.zip"⟩ ".ben" true false ".ben"
    ⟨[], "a.ben"⟩ ⟨0, true⟩ rfl rfl rfl rfl
  exact ⟨h.1, (h.2 (Or.inr rfl)).1, (h.2 (Or.inr rfl)).2⟩

/-- A numeric-suffix candidate of `a.ben` is never `a.zip`: its second
character is the dash, not a dot. -/
theorem cand_aben_ne_azip (dir : List String) (i : Nat) :
    candidate ⟨dir, "a.ben"⟩ i ≠ ⟨dir, "a.zip"⟩ := by
  intro h
  have hname := congrArg (fun q => q.name.data) h
  have h2 : ('a' :: '-' :: (natDigits i ++ (['.', 'b', 'e', 'n'] : List Char)))
      = ("a.zip" : String).data := hname
  injection h2 with h2a h2b
  injection h2b with h2c h2d
  exact absurd h2c (by decide)

/-- C1: with an existing `a.ben` and no `--force`, a valid ZIP `a.zip` is
renamed to the first free numeric-suffix candidate `a-i.ben` (all earlier
candidates being taken), the message records the conflict adjustment, the
pre-existing `a.ben` keeps its entry, and `a.zip` is gone. -/
theorem conflict_roundtrip : ∀ (fs : FS) (dir : List String) (f : FsFile),
    lookupFS fs ⟨dir, "a.zip"⟩ = some (.file f) → f.isZip = true →
    existsFS fs ⟨dir, "a.ben"⟩ = true →
    ∃ i, 1 ≤ i ∧
      next_available_path fs ⟨dir, "a.ben"⟩ = candidate ⟨dir, "a.ben"⟩ i ∧
      existsFS fs (candidate ⟨dir, "a.ben"⟩ i) = false ∧
      (∀ j, 1 ≤ j → j < i → existsFS fs (candidate ⟨dir, "a.ben"⟩ j) = true) ∧
      (change_extension fs ⟨dir, "a.zip"⟩ ".ben" true false false).result
        = .ok (true, .renamed "a.zip" (candidate ⟨dir, "a.ben"⟩ i).name
            (some (candidate ⟨dir, "a.ben"⟩ i).name)) ∧
      (change_extension fs ⟨dir, "a.zip"⟩ ".ben" true false false).ops
        = [(⟨dir, "a.zip"⟩, candidate ⟨dir, "a.ben"⟩ i)] ∧
      lookupFS (change_extension fs ⟨dir, "a.zip"⟩ ".ben" true false false).fs
          ⟨dir, "a.ben"⟩ = lookupFS fs ⟨dir, "a.ben"⟩ ∧
      lookupFS (change_extension fs ⟨dir, "a.zip"⟩ ".ben" true false false).fs
          ⟨dir, "a.zip"⟩ = none ∧
      lookupFS (change_extension fs ⟨dir, "a.zip"⟩ ".ben" true false false).fs
          (candidate ⟨dir, "a.ben"⟩ i) = some (.file f) := by
  intro fs dir f hFile hzip hex
  have hE : ensureDot ".ben" = .ok ".ben" := rfl
  have hW : withSuffix ⟨dir, "a.zip"⟩ ".ben" = .ok ⟨dir, "a.ben"⟩ := rfl
  have hZ : (true && !(is_zip_file fs ⟨dir, "a.zip"⟩)) = false := by
    unfold is_zip_file
    rw [hFile]
    simp [hzip]
  have heq := ce_real_run fs ⟨dir, "a.zip"⟩ ".ben" true false f ".ben" ⟨dir, "a.ben"⟩
    hFile hE hZ hW
  rw [if_neg (by simp)] at heq
  simp only [Bool.false_eq_true, if_false] at heq
  obtain ⟨i, hi1, hi2, hi3, hi4⟩ := nap_spec fs ⟨dir, "a.ben"⟩ hex
  rw [hi2] at heq
  rw [if_neg (candidate_ne_target ⟨dir, "a.ben"⟩ i)] at heq
  have hne1 : (⟨dir, "a.ben"⟩ : PyPath) ≠ candidate ⟨dir, "a.ben"⟩ i :=
    Ne.symm (candidate_ne_target ⟨dir, "a.ben"⟩ i)
  have hne2 : (⟨dir, "a.ben"⟩ : PyPath) ≠ ⟨dir, "a.zip"⟩ := by
    intro hh
    injection hh with h1 h2
    exact absurd h2 (by decide)
  have hne3 : (⟨dir, "a.zip"⟩ : PyPath) ≠ candidate ⟨dir, "a.ben"⟩ i :=
    Ne.symm (cand_aben_ne_azip dir i)
  refine ⟨i, hi1, hi2, hi3, hi4, ?_, ?_, ?_, ?_, ?_⟩
  · rw [heq]
  · rw [heq]
  · rw [heq]
    show lookupFS (setFS (eraseFS fs ⟨dir, "a.zip"⟩) (candidate ⟨dir, "a.ben"⟩ i)
        (.file f)) ⟨dir, "a.ben"⟩ = lookupFS fs ⟨dir, "a.ben"⟩
    rw [lookupFS_setFS_ne _ _ _ _ hne1, lookupFS_eraseFS_ne _ _ _ hne2]
  · rw [heq]
    show lookupFS (setFS (eraseFS fs ⟨dir, "a.zip"⟩) (candidate ⟨dir, "a.ben"⟩ i)
        (.file f)) ⟨dir, "a.zip"⟩ = none
    rw [lookupFS_setFS_ne _ _ _ _ hne3, lookupFS_eraseFS_self]
  · rw [heq]
    show lookupFS (setFS (eraseFS fs ⟨dir, "a.zip"⟩) (candidate ⟨dir, "a.ben"⟩ i)
        (.file f)) (candidate ⟨dir, "a.ben"⟩ i) = some (.file f)
    rw [lookupFS_setFS_self]

/-- Witness for C1 on `fsC` (`a.zip` a valid ZIP, `a.ben` present): the
conflict-avoidance round-trip applies; concretely the run renames `a.zip`
to `a-1.ben` and keeps `a.ben`'s entry. -/
theorem conflict_roundtrip_witness :
    (∃ i, 1 ≤ i ∧
      next_available_path fsC ⟨[], "a.ben"⟩ = candidate ⟨[], "a.ben"⟩ i ∧
      existsFS fsC (candidate ⟨[], "a.ben"⟩ i) = false ∧
      (∀ j, 1 ≤ j → j < i → existsFS fsC (candidate ⟨[], "a.ben"⟩ j) = true) ∧
      (change_extension fsC ⟨[], "a.zip"⟩ ".ben" true false false).result
        = .ok (true, .renamed "a.zip" (candidate ⟨[], "a.ben"⟩ i).name
            (some (candidate ⟨[], "a.ben"⟩ i).name)) ∧
      (change_extension fsC ⟨[], "a.zip"⟩ ".ben" true false false).ops
        = [(⟨[], "a.zip"⟩, candidate ⟨[], "a.ben"⟩ i)] ∧
      lookupFS (change_extension fsC ⟨[], "a.zip"⟩ ".ben" true false false).fs
          ⟨[], "a.ben"⟩ = lookupFS fsC ⟨[], "a.ben"⟩ ∧
      lookupFS (change_extension fsC ⟨[], "a.zip"⟩ ".ben" true false false).fs
          ⟨[], "a.zip"⟩ = none ∧
      lookupFS (change_extension fsC ⟨[], "a.zip"⟩ ".ben" true false false).fs
          (candidate ⟨[], "a.ben"⟩ i) = some (.file ⟨0, true⟩)) ∧
    lookupFS (change_extension fsC ⟨[], "a.zip"⟩ ".ben" true false false).fs
        ⟨[], "a-1.ben"⟩ = some (.file ⟨0, true⟩) :=
  ⟨conflict_roundtrip fsC [] ⟨0, true⟩ rfl rfl rfl, rfl⟩

theorem is_zip_file_lookup (fs : FS) (p : PyPath) (f : FsFile)
    (h : lookupFS fs p = some (.file f)) : is_zip_file fs p = f.isZip := by
  unfold is_zip_file
  rw [h]

/-- C2: with `--force`, a valid ZIP `a.zip` replaces `a.ben` atomically when
it exists (the old `a.ben` entry is discarded, `a.zip` is removed, every
other path is untouched), and is renamed to exactly `a.ben` when the
destination does not exist. -/
theorem overwrite_semantics : ∀ (fs : FS) (dir : List String) (f : FsFile),
    lookupFS fs ⟨dir, "a.zip"⟩ = some (.file f) → f.isZip = true →
    (existsFS fs ⟨dir, "a.ben"⟩ = true →
      (change_extension fs ⟨dir, "a.zip"⟩ ".ben" true true false).result
        = .ok (true, .renamedOverwrote "a.zip" "a.ben") ∧
      (change_extension fs ⟨dir, "a.zip"⟩ ".ben" true true false).ops
        = [(⟨dir, "a.zip"⟩, ⟨dir, "a.ben"⟩)] ∧
      lookupFS (change_extension fs ⟨dir, "a.zip"⟩ ".ben" true true false).fs
          ⟨dir, "a.ben"⟩ = some (.file f) ∧
      lookupFS (change_extension fs ⟨dir, "a.zip"⟩ ".ben" true true false).fs
          ⟨dir, "a.zip"⟩ = none ∧
      (∀ q, q ≠ ⟨dir, "a.zip"⟩ → q ≠ ⟨dir, "a.ben"⟩ →
        lookupFS (change_extension fs ⟨dir, "a.zip"⟩ ".ben" true true false).fs q
          = lookupFS fs q)) ∧
    (existsFS fs ⟨dir, "a.ben"⟩ = false →
      (change_extension fs ⟨dir, "a.zip"⟩ ".ben" true true false).result
        = .ok (true, .renamed "a.zip" "a.ben" none) ∧
      (change_extension fs ⟨dir, "a.zip"⟩ ".ben" true true false).ops
        = [(⟨dir, "a.zip"⟩, ⟨dir, "a.ben"⟩)] ∧
      lookupFS (change_extension fs ⟨dir, "a.zip"⟩ ".ben" true true false).fs
          ⟨dir, "a.ben"⟩ = some (.file f) ∧
      lookupFS (change_extension fs ⟨dir, "a.zip"⟩ ".ben" true true false).fs
          ⟨dir, "a.zip"⟩ = none ∧
      (∀ q, q ≠ ⟨dir, "a.zip"⟩ → q ≠ ⟨dir, "a.ben"⟩ →
        lookupFS (change_extension fs ⟨dir, "a.zip"⟩ ".ben" true true false).fs q
          = lookupFS fs q)) := by
  intro fs dir f hFile hzip
  have hE : ensureDot ".ben" = .ok ".ben" := rfl
  have hW : withSuffix ⟨dir, "a.zip"⟩ ".ben" = .ok ⟨dir, "a.ben"⟩ := rfl
  have hZ : (true && !(is_zip_file fs ⟨dir, "a.zip"⟩)) = false := by
    rw [is_zip_file_lookup fs _ f hFile, hzip]
    rfl
  have heq := ce_real_run fs ⟨dir, "a.zip"⟩ ".ben" true true f ".ben" ⟨dir, "a.ben"⟩
    hFile hE hZ hW
  have hne : (⟨dir, "a.ben"⟩ : PyPath) ≠ ⟨dir, "a.zip"⟩ := by
    intro hh
    injection hh with h1 h2
    exact absurd h2 (by decide)
  constructor
  · intro hex
    rw [if_pos (by simp [hex])] at heq
    refine ⟨by rw [heq], by rw [heq], ?_, ?_, ?_⟩
    · rw [heq]
      show lookupFS (setFS (eraseFS fs ⟨dir, "a.zip"⟩) ⟨dir, "a.ben"⟩ (.file f))
          ⟨dir, "a.ben"⟩ = some (.file f)
      rw [lookupFS_setFS_self]
    · rw [heq]
      show lookupFS (setFS (eraseFS fs ⟨dir, "a.zip"⟩) ⟨dir, "a.ben"⟩ (.file f))
          ⟨dir, "a.zip"⟩ = none
      rw [lookupFS_setFS_ne _ _ _ _ (Ne.symm hne), lookupFS_eraseFS_self]
    · intro q hq1 hq2
      rw [heq]
      show lookupFS (setFS (eraseFS fs ⟨dir, "a.zip"⟩) ⟨dir, "a.ben"⟩ (.file f)) q
          = lookupFS fs q
      rw [lookupFS_setFS_ne _ _ _ _ hq2, lookupFS_eraseFS_ne _ _ _ hq1]
  · intro hexf
    rw [if_neg (by rw [hexf]; simp)] at heq
    simp only [eq_self_iff_true, if_true] at heq
    refine ⟨by rw [heq], by rw [heq], ?_, ?_, ?_⟩
    · rw [heq]
      show lookupFS (setFS (eraseFS fs ⟨dir, "a.zip"⟩) ⟨dir, "a.ben"⟩ (.file f))
          ⟨dir, "a.ben"⟩ = some (.file f)
      rw [lookupFS_setFS_self]
    · rw [heq]
      show lookupFS (setFS (eraseFS fs ⟨dir, "a.zip"⟩) ⟨dir, "a.ben"⟩ (.file f))
          ⟨dir, "a.zip"⟩ = none
      rw [lookupFS_setFS_ne _ _ _ _ (Ne.symm hne), lookupFS_eraseFS_self]
    · intro q hq1 hq2
      rw [heq]
      show lookupFS (setFS (eraseFS fs ⟨dir, "a.zip"⟩) ⟨dir, "a.ben"⟩ (.file f)) q
          = lookupFS fs q
      rw [lookupFS_setFS_ne _ _ _ _ hq2, lookupFS_eraseFS_ne _ _ _ hq1]

/-- Witness for C2 on `fsC`: forcing onto the existing `a.ben` discards its
old entry (content 1) in favour of `a.zip`'s (content 0) and removes
`a.zip`. -/
theorem overwrite_semantics_witness :
    existsFS fsC ⟨[], "a.ben"⟩ = true ∧
    ((change_extension fsC ⟨[], "a.zip"⟩ ".ben" true true false).result
        = .ok (true, .renamedOverwrote "a.zip" "a.ben") ∧
      (change_extension fsC ⟨[], "a.zip"⟩ ".ben" true true false).ops
        = [(⟨[], "a.zip"⟩, ⟨[], "a.ben"⟩)] ∧
      lookupFS (change_extension fsC ⟨[], "a.zip"⟩ ".ben" true true false).fs
          ⟨[], "a.ben"⟩ = some (.file ⟨0, true⟩) ∧
      lookupFS (change_extension fsC ⟨[], "a.zip"⟩ ".ben" true true false).fs
          ⟨[], "a.zip"⟩ = none ∧
      (∀ q, q ≠ ⟨[], "a.zip"⟩ → q ≠ ⟨[], "a.ben"⟩ →
        lookupFS (change_extension fsC ⟨[], "a.zip"⟩ ".ben" true true false).fs q
          = lookupFS fsC q)) :=
  ⟨rfl, (overwrite_semantics fsC [] ⟨0, true⟩ rfl rfl).1 rfl⟩

/-- C10: a regular, valid-ZIP file whose name already carries the target
suffix `.ben` is not left in place by a no-overwrite real run: the naive
destination equals the source and exists, so the file moves to the first
free numeric-suffix candidate and the original name disappears.  Since the
renamed file again carries the `.ben` suffix, the theorem applies to the
output state as well: repetition keeps producing new names. -/
theorem already_converted_moves : ∀ (fs : FS) (p : PyPath) (f : FsFile),
    lookupFS fs p = some (.file f) → f.isZip = true →
    (sufstem p.name.data).2 = (".ben" : String).data →
    ∃ i, 1 ≤ i ∧
      next_available_path fs p = candidate p i ∧
      candidate p i ≠ p ∧
      existsFS fs (candidate p i) = false ∧
      (change_extension fs p ".ben" true false false).result
        = .ok (true, .renamed p.name (candidate p i).name (some (candidate p i).name)) ∧
      (change_extension fs p ".ben" true false false).ops = [(p, candidate p i)] ∧
      lookupFS (change_extension fs p ".ben" true false false).fs p = none ∧
      lookupFS (change_extension fs p ".ben" true false false).fs (candidate p i)
        = some (.file f) := by
  intro fs p f hFile hzip hsuf
  have hE : ensureDot ".ben" = .ok ".ben" := rfl
  have hW : withSuffix p ".ben" = .ok p := by
    unfold withSuffix
    rw [if_neg (by decide), if_neg (by decide)]
    have hname : String.mk ((sufstem p.name.data).1 ++ (".ben" : String).data) = p.name := by
      rw [← hsuf, sufstem_append]
    rw [hname]
  have hZ : (true && !(is_zip_file fs p)) = false := by
    rw [is_zip_file_lookup fs p f hFile, hzip]
    rfl
  have hex : existsFS fs p = true := existsFS_of_lookup fs p (.file f) hFile
  have heq := ce_real_run fs p ".ben" true false f ".ben" p hFile hE hZ hW
  rw [if_neg (by simp)] at heq
  simp only [Bool.false_eq_true, if_false] at heq
  obtain ⟨i, hi1, hi2, hi3, hi4⟩ := nap_spec fs p hex
  rw [hi2] at heq
  rw [if_neg (candidate_ne_target p i)] at heq
  refine ⟨i, hi1, hi2, candidate_ne_target p i, hi3, ?_, ?_, ?_, ?_⟩
  · rw [heq]
  · rw [heq]
  · rw [heq]
    show lookupFS (setFS (eraseFS fs p) (candidate p i) (.file f)) p = none
    rw [lookupFS_setFS_ne _ _ _ _ (Ne.symm (candidate_ne_target p i)), lookupFS_eraseFS_self]
  · rw [heq]
    show lookupFS (setFS (eraseFS fs p) (candidate p i) (.file f)) (candidate p i)
        = some (.file f)
    rw [lookupFS_setFS_self]

/-- A filesystem holding a single already-converted file `a.ben`. -/
def fsD : FS := [(⟨[], "a.ben"⟩, .file ⟨7, true⟩)]

/-- Witness for C10 on `fsD`: running the default conversion on `a.ben`
moves it (concretely to `a-1.ben`) instead of leaving it in place. -/
theorem already_converted_moves_witness :
    (∃ i, 1 ≤ i ∧
      next_available_path fsD ⟨[], "a.ben"⟩ = candidate ⟨[], "a.ben"⟩ i ∧
      candidate ⟨[], "a.ben"⟩ i ≠ ⟨[], "a.ben"⟩ ∧
      existsFS fsD (candidate ⟨[], "a.ben"⟩ i) = false ∧
      (change_extension fsD ⟨[], "a.ben"⟩ ".ben" true false false).result
        = .ok (true, .renamed (PyPath.mk [] "a.ben").name
            (candidate ⟨[], "a.ben"⟩ i).name (some (candidate ⟨[], "a.ben"⟩ i).name)) ∧
      (change_extension fsD ⟨[], "a.ben"⟩ ".ben" true false false).ops
        = [(⟨[], "a.ben"⟩, candidate ⟨[], "a.ben"⟩ i)] ∧
      lookupFS (change_extension fsD ⟨[], "a.ben"⟩ ".ben" true false false).fs
          ⟨[], "a.ben"⟩ = none ∧
      lookupFS (change_extension fsD ⟨[], "a.ben"⟩ ".ben" true false false).fs
          (candidate ⟨[], "a.ben"⟩ i) = some (.file ⟨7, true⟩)) ∧
    lookupFS (change_extension fsD ⟨[], "a.ben"⟩ ".ben" true false false).fs
        ⟨[], "a-1.ben"⟩ = some (.file ⟨7, true⟩) :=
  ⟨already_converted_moves fsD ⟨[], "a.ben"⟩ ⟨7, true⟩ rfl rfl rfl, rfl⟩

/-! ### Lemmas about input expansion and the main loop -/

theorem dedupStep_ne_nil (env : Env) (fs : FS) (acc : List PyPath × List PyPath)
    (p : PyPath) (h : acc.2 ≠ []) : (dedupStep env fs acc p).2 ≠ [] := by
  simp only [dedupStep]
  split
  · exact h
  · simp

theorem dedupStep_from_empty (env : Env) (fs : FS) (p : PyPath) :
    (dedupStep env fs ([], []) p).2 ≠ [] := by
  simp [dedupStep]

theorem foldl_dedup_ne_nil (env : Env) (fs : FS) (ms : List PyPath) :
    ∀ acc : List PyPath × List PyPath, acc.2 ≠ [] →
    (ms.foldl (dedupStep env fs) acc).2 ≠ [] := by
  induction ms with
  | nil => intro acc h; exact h
  | cons m rest ih =>
    intro acc h
    exact ih (dedupStep env fs acc m) (dedupStep_ne_nil env fs acc m h)

theorem expandStep_ne_nil (env : Env) (fs : FS) (acc : List PyPath × List PyPath)
    (item : String) (h : acc.2 ≠ []) : (expandStep env fs acc item).2 ≠ [] := by
  unfold expandStep
  exact foldl_dedup_ne_nil env fs _ acc h

theorem expandStep_from_empty (env : Env) (fs : FS) (item : String) :
    (expandStep env fs ([], []) item).2 ≠ [] := by
  simp only [expandStep]
  cases hms : (if ((env.glob item).map parsePath) = []
      then [parsePath item] else (env.glob item).map parsePath) with
  | nil =>
    exfalso
    by_cases h0 : ((env.glob item).map parsePath) = []
    · rw [if_pos h0] at hms; cases hms
    · rw [if_neg h0] at hms; exact h0 hms
  | cons m rest =>
    show (List.foldl (dedupStep env fs) (dedupStep env fs ([], []) m) rest).2 ≠ []
    exact foldl_dedup_ne_nil env fs rest _ (dedupStep_from_empty env fs m)

theorem foldl_expand_ne_nil (env : Env) (fs : FS) (items : List String) :
    ∀ acc : List PyPath × List PyPath, acc.2 ≠ [] →
    (items.foldl (expandStep env fs) acc).2 ≠ [] := by
  induction items with
  | nil => intro acc h; exact h
  | cons it rest ih =>
    intro acc h
    exact ih (expandStep env fs acc it) (expandStep_ne_nil env fs acc it h)

/-- With at least one token, input expansion always yields at least one
path — the literal fallback guarantees it. -/
theorem expand_inputs_ne_nil (env : Env) (fs : FS) (items : List String)
    (h : items ≠ []) : expand_inputs env fs items ≠ [] := by
  unfold expand_inputs
  cases items with
  | nil => exact absurd rfl h
  | cons it rest =>
    show (List.foldl (expandStep env fs) (expandStep env fs ([], []) it) rest).2 ≠ []
    exact foldl_expand_ne_nil env fs rest _ (expandStep_from_empty env fs it)

/-- Every processed file contributes exactly one outcome. -/
theorem processFiles_length : ∀ (files : List PyPath) (fs fs2 : FS) (a : Args)
    (outs : List (Bool × Msg)),
    processFiles fs files a = .ok (fs2, outs) → outs.length = files.length := by
  intro files
  induction files with
  | nil =>
    intro fs fs2 a outs h
    unfold processFiles at h
    simp only [Except.ok.injEq, Prod.mk.injEq] at h
    rw [← h.2]
    rfl
  | cons f rest ih =>
    intro fs fs2 a outs h
    simp only [processFiles] at h
    cases hr : (change_extension fs f a.toExt (!a.no_verify) a.force a.dry_run).result with
    | error e => rw [hr] at h; cases h
    | ok pr =>
      rw [hr] at h
      obtain ⟨ok1, msg1⟩ := pr
      cases hrec : processFiles (change_extension fs f a.toExt (!a.no_verify) a.force a.dry_run).fs rest a with
      | error e => rw [hrec] at h; cases h
      | ok pr2 =>
        rw [hrec] at h
        obtain ⟨fs3, outs3⟩ := pr2
        simp only [Except.ok.injEq, Prod.mk.injEq] at h
        rw [← h.2]
        simp [ih _ fs3 a outs3 hrec]

/-- The fold of `overall_ok = overall_ok and ok` equals `List.all`. -/
theorem foldl_and_eq_all (l : List (Bool × Msg)) : ∀ b : Bool,
    l.foldl (fun acc o => acc && o.1) b = (b && l.all (fun o => o.1)) := by
  induction l with
  | nil => intro b; simp
  | cons x xs ih =>
    intro b
    simp [List.foldl_cons, List.all_cons, ih, Bool.and_assoc]

/-- C5: with at least one input token, `main` processes every resolved
file (one outcome per file — skips do not stop the batch), prints one
rendered message per file, and exits 0 exactly when every per-file outcome
was successful, else 1. -/
theorem main_exit_aggregation : ∀ (env : Env) (fs : FS) (args : Args) (fs2 : FS)
    (outs : List (Bool × Msg)),
    args.paths ++ args.pattern ≠ [] →
    processFiles fs (expand_inputs env fs (args.paths ++ args.pattern)) args
      = .ok (fs2, outs) →
    mainRun env fs args
      = .ok (fs2, outs.map (fun o => renderMsg o.2),
          if outs.all (fun o => o.1) then 0 else 1) ∧
    ((if outs.all (fun o => o.1) then (0 : Nat) else 1) = 0 ↔ ∀ o ∈ outs, o.1 = true) ∧
    outs.length = (expand_inputs env fs (args.paths ++ args.pattern)).length := by
  intro env fs args fs2 outs hinputs hproc
  refine ⟨?_, ?_, processFiles_length _ _ _ _ _ hproc⟩
  · simp only [mainRun]
    rw [if_neg hinputs]
    rw [if_neg (expand_inputs_ne_nil env fs _ hinputs)]
    rw [hproc]
    simp only [foldl_and_eq_all, Bool.true_and]
  · by_cases hall : outs.all (fun o => o.1) = true
    · rw [if_pos hall]
      constructor
      · intro _
        exact fun o ho => List.all_eq_true.mp hall o ho
      · intro _
        rfl
    · have hallf : outs.all (fun o => o.1) = false := by
        cases hb : outs.all (fun o => o.1) with
        | true => exact absurd hb hall
        | false => rfl
      rw [if_neg (by rw [hallf]; simp)]
      constructor
      · intro h10
        cases h10
      · intro hforall
        exact absurd (List.all_eq_true.mpr hforall) hall

/-- The trivial environment used by witnesses: no glob matches, identity
resolution. -/
def envW : Env := ⟨fun _ => [], fun p => p⟩

/-- Witness for C5: a one-file batch succeeds, yields one outcome, and
exits 0. -/
theorem main_exit_aggregation_witness :
    mainRun envW fsA ⟨["a.zip"], [], ".ben", false, false, false⟩
      = .ok ([(⟨[], "a.ben"⟩, .file ⟨0, true⟩)],
          [(true, Msg.renamed "a.zip" "a.ben" none)].map (fun o => renderMsg o.2),
          if [(true, Msg.renamed "a.zip" "a.ben" none)].all (fun o => o.1) then 0 else 1) ∧
    ((if [(true, Msg.renamed "a.zip" "a.ben" none)].all (fun o => o.1) then (0 : Nat) else 1)
        = 0 ↔ ∀ o ∈ [(true, Msg.renamed "a.zip" "a.ben" none)], o.1 = true) :=
  ⟨(main_exit_aggregation envW fsA ⟨["a.zip"], [], ".ben", false, false, false⟩
      [(⟨[], "a.ben"⟩, .file ⟨0, true⟩)] [(true, Msg.renamed "a.zip" "a.ben" none)]
      (by decide) rfl).1,
   (main_exit_aggregation envW fsA ⟨["a.zip"], [], ".ben", false, false, false⟩
      [(⟨[], "a.ben"⟩, .file ⟨0, true⟩)] [(true, Msg.renamed "a.zip" "a.ben" none)]
      (by decide) rfl).2.1⟩

/-- Counterexample to C8 as stated: with the single pattern `*.zip`
matching zero files, the program exits 1 touching no file, but it does not
print `"No files matched the provided paths/patterns."` — the token falls
back to a literal path and is reported with a per-file skip message
instead. -/
theorem no_match_message_cex :
    mainRun envW [] ⟨["*.zip"], [], ".ben", false, false, false⟩
      = .ok ([], ["Skip: " ++ squote ++ "*.zip" ++ squote ++ " is not a file."], 1) ∧
    ("Skip: " ++ squote ++ "*.zip" ++ squote ++ " is not a file.")
      ≠ "No files matched the provided paths/patterns." :=
  ⟨rfl, by decide⟩

/-- C8 amended: when the single input `*.zip` matches no file and no file
of that literal name exists, the run exits with status 1 and mutates
nothing — but the printed line is the per-file skip message
`Skip: '*.zip' is not a file.`; the `"No files matched"` branch of `main`
is unreachable for nonempty inputs because unmatched tokens fall back to
literal paths. -/
theorem no_match_amended : ∀ (env : Env) (fs : FS),
    env.glob "*.zip" = [] →
    existsFS fs ⟨[], "*.zip"⟩ = false →
    mainRun env fs ⟨["*.zip"], [], ".ben", false, false, false⟩
      = .ok (fs, ["Skip: " ++ squote ++ "*.zip" ++ squote ++ " is not a file."], 1) := by
  intro env fs hglob hex
  have hfile : isFileFS fs ⟨[], "*.zip"⟩ = false := by
    unfold existsFS at hex
    unfold isFileFS
    cases hl : lookupFS fs ⟨[], "*.zip"⟩ with
    | none => rfl
    | some e =>
      rw [hl] at hex
      cases hex
  have hp : parsePath "*.zip" = (⟨[], "*.zip"⟩ : PyPath) := rfl
  have hexp : expand_inputs env fs ["*.zip"] = [⟨[], "*.zip"⟩] := by
    unfold expand_inputs
    show (expandStep env fs ([], []) "*.zip").2 = [⟨[], "*.zip"⟩]
    simp [expandStep, hglob, hp, dedupStep, normalizeMatch, hex]
  have hskip := ce_skip_notfile fs ⟨[], "*.zip"⟩ ".ben" true false false hfile
  have hprocessed : processFiles fs [⟨[], "*.zip"⟩]
      ⟨["*.zip"], [], ".ben", false, false, false⟩
      = .ok (fs, [(false, .skipNotFile ⟨[], "*.zip"⟩)]) := by
    simp only [processFiles, Bool.not_false, hskip]
  simp only [mainRun]
  rw [if_neg (by decide)]
  rw [show (["*.zip"] : List String) ++ [] = ["*.zip"] from rfl] at *
  rw [hexp]
  rw [if_neg (by decide)]
  rw [hprocessed]
  rfl

/-- Witness for the amended C8 in the concrete witness environment. -/
theorem no_match_amended_witness :
    mainRun envW [] ⟨["*.zip"], [], ".ben", false, false, false⟩
      = .ok ([], ["Skip: " ++ squote ++ "*.zip" ++ squote ++ " is not a file."], 1) :=
  no_match_amended envW [] rfl rfl
